import Mathlib

/-
Verification development for the GitHub release-notes fetcher
(get_latest_releases.py).  The Python code is shallowly embedded:

* Python strings are `List Char` (`Str`); the operations used by the code
  (lower-casing, substring test, split on a character, prefix strip) are
  defined below over `Str`.
* The per-repository accumulator dict is an insertion-ordered association
  list `Acc`; its values are `AccVal`, a tagged variant distinguishing the
  history-mode list from the latest-only pair, mirroring the dynamic
  shapes the Python dict holds.
* Python exceptions that escape a scope are modelled with
  `Except String`; the carried string names the Python exception class.
* The network is a list of page responses `PageResp`; the filesystem is an
  association list from path components to file content.
-/

namespace PyMon

abbrev Str := List Char

def toLowerStr (s : Str) : Str := s.map Char.toLower

/-- Python `x.lower() if x else ''` for an optional string field. -/
def lowerOpt : Option Str → Str
  | some s => toLowerStr s
  | none => []

def defaultBody : Str := "No release notes provided.".data

/-- Python `release['body'] or "No release notes provided."`: the empty
string is falsy, so it is also replaced by the placeholder. -/
def bodyOr : Option Str → Str
  | some s => if s.isEmpty then defaultBody else s
  | none => defaultBody

/-- Python `needle in hay` (substring test). -/
def isSubstrOf (needle : Str) : Str → Bool
  | [] => needle.isEmpty
  | c :: t => needle.isPrefixOf (c :: t) || isSubstrOf needle t

/-- Python `s.split(c)` for a single-character separator. -/
def splitOnChar (c : Char) : Str → List Str
  | [] => [[]]
  | x :: t =>
    if x = c then [] :: splitOnChar c t
    else
      match splitOnChar c t with
      | [] => [[x]]
      | h :: r => (x :: h) :: r

/-- Python `tag_name.split('/')[0]`. -/
def beforeSlash (s : Str) : Str := (splitOnChar '/' s).headD []

/-- Python `s.strip()`. -/
def trimStr (s : Str) : Str :=
  ((s.dropWhile Char.isWhitespace).reverse.dropWhile Char.isWhitespace).reverse

/-- A raw release record as returned by the release-listing endpoint
(the fields the code reads: tag_name, name, body, draft, prerelease). -/
structure RawRelease where
  tag_name : Str
  name : Option Str
  body : Option Str
  draft : Bool
  prerelease : Bool
deriving DecidableEq

/-- The ReleaseInfo class of the source. -/
structure ReleaseInfo where
  tag : Str
  body : Str
  is_prerelease : Bool
deriving DecidableEq

/-- ReleaseInfo(release['tag_name'], release['body'] or placeholder,
release['prerelease']). -/
def mkInfo (r : RawRelease) : ReleaseInfo :=
  ⟨r.tag_name, bodyOr r.body, r.prerelease⟩

/-- A value of the accumulator dict: a list of releases in history mode, a
(latest stable, latest prerelease) pair in latest-only mode. -/
inductive AccVal where
  | hist (rs : List ReleaseInfo)
  | latest (stable pre : Option ReleaseInfo)
deriving DecidableEq

/-- The accumulator dict `artifacts_releases`, as an insertion-ordered
association list (Python dicts preserve insertion order; updating an
existing key keeps its position, a new key is appended at the end). -/
abbrev Acc := List (Str × AccVal)

def lookupKey : Acc → Str → Option AccVal
  | [], _ => none
  | (k0, v) :: t, k => if k0 = k then some v else lookupKey t k

/-- Python `d[k] = v`: update in place if present, append if absent. -/
def setKey : Acc → Str → AccVal → Acc
  | [], k, v => [(k, v)]
  | (k0, v0) :: t, k, v => if k0 = k then (k, v) :: t else (k0, v0) :: setKey t k v

def keysOf (acc : Acc) : List Str := acc.map Prod.fst

/-- The per-mode fresh slot: `[]` in history mode, `(None, None)` in
latest-only mode. -/
def initVal (fetch_history : Bool) : AccVal :=
  if fetch_history then .hist [] else .latest none none

/-- Lines 297-302: one slot per configured artifact. -/
def initAcc (fetch_history : Bool) (configured : List Str) : Acc :=
  configured.foldl (fun acc a => setKey acc a (initVal fetch_history)) []

/-- One configured artifact matches if its lowercase form is a substring of
the lowercased name, tag or body (lines 346-350). -/
def matchesFields (a nm tg bd : Str) : Bool :=
  isSubstrOf (toLowerStr a) nm || isSubstrOf (toLowerStr a) tg || isSubstrOf (toLowerStr a) bd

/-- Lines 344-353: `matched_artifact` after the configured-artifact loop;
`if artifact and (...)` skips falsy (empty) keys, the loop breaks at the
first match, and `''` is kept when nothing matches. -/
def matchConfigured (configured : List Str) (nm tg bd : Str) : Str :=
  match configured with
  | [] => []
  | a :: rest =>
    if !a.isEmpty && matchesFields a nm tg bd then a else matchConfigured rest nm tg bd

/-- The configured-artifact match on the three lowercased fields of a
record (the arguments of matchConfigured at line 345). -/
def matchOn (configured : List Str) (r : RawRelease) : Str :=
  matchConfigured configured (lowerOpt r.name) (toLowerStr r.tag_name) (lowerOpt r.body)

/-- The artifact key a record is classified to; the key does not depend on
the accumulator (lines 338-359 minus the slot initialization). -/
def classifyKey (configured : List Str) (r : RawRelease) : Str :=
  if (matchOn configured r).isEmpty && r.tag_name.contains '/' then beforeSlash r.tag_name
  else matchOn configured r

/-- Lines 338-365: classification plus the tag-derived fallback, which also
creates a fresh mode-appropriate slot when the derived key is unknown. -/
def classifyInit (fetch_history : Bool) (configured : List Str) (acc : Acc) (r : RawRelease) :
    Str × Acc :=
  if (matchOn configured r).isEmpty && r.tag_name.contains '/' then
    (beforeSlash r.tag_name,
     if (lookupKey acc (beforeSlash r.tag_name)).isNone then
       setKey acc (beforeSlash r.tag_name) (initVal fetch_history)
     else acc)
  else (matchOn configured r, acc)

/-- Line 378: `artifacts_releases.get(matched_artifact, (None, None))`,
followed by tuple unpacking.  A history-mode list value would fail the
two-element unpacking; in latest-only runs every value is a pair, so the
error branch is unreachable there. -/
def getPair (acc : Acc) (k : Str) : Except String (Option ReleaseInfo × Option ReleaseInfo) :=
  match lookupKey acc k with
  | some (.hist _) => .error "ValueError"
  | some (.latest s p) => .ok (s, p)
  | none => .ok (none, none)

/-- Lines 377-382: latest-only storage, first seen wins per category. -/
def storeLatest (acc : Acc) (k : Str) (info : ReleaseInfo) (pre : Bool) : Except String Acc :=
  match getPair acc k with
  | .error e => .error e
  | .ok (current_stable, current_pre) =>
    .ok
      (if pre && current_pre.isNone then setKey acc k (.latest current_stable (some info))
       else if !pre && current_stable.isNone then setKey acc k (.latest (some info) current_pre)
       else acc)

/-- Lines 373-375: `artifacts_releases[matched_artifact].append(info)`.
A missing key raises KeyError; a pair value has no append (AttributeError). -/
def storeHist (acc : Acc) (k : Str) (info : ReleaseInfo) : Except String Acc :=
  match lookupKey acc k with
  | some (.hist rs) => .ok (setKey acc k (.hist (rs ++ [info])))
  | some (.latest _ _) => .error "AttributeError"
  | none => .error "KeyError"

/-- The loop body of lines 338-382 for one non-draft record. -/
def processRelease (fetch_history : Bool) (configured : List Str) (acc : Acc) (r : RawRelease) :
    Except String Acc :=
  let ci := classifyInit fetch_history configured acc r
  if fetch_history then storeHist ci.2 ci.1 (mkInfo r)
  else storeLatest ci.2 ci.1 (mkInfo r) r.prerelease

/-- Truthiness of one dict value in the stop condition `stable and pre`.
History-mode list values never occur when the condition runs (it is guarded
by latest-only mode and latest-only runs hold only pairs). -/
def bothFilled : AccVal → Bool
  | .latest (some _) (some _) => true
  | .latest _ _ => false
  | .hist _ => false

/-- Line 386: `all(stable and pre for stable, pre in artifacts_releases.values())`. -/
def allFilled (acc : Acc) : Bool := acc.all fun kv => bothFilled kv.2

/-- Lines 334-388: the per-page loop.  Drafts are skipped before the stop
check; in latest-only mode the loop breaks out of the page as soon as every
known key has both slots filled. -/
def processPage (fetch_history : Bool) (configured : List Str) (acc : Acc) :
    List RawRelease → Except String Acc
  | [] => .ok acc
  | r :: rest =>
    if r.draft then processPage fetch_history configured acc rest
    else
      match processRelease fetch_history configured acc r with
      | .error e => .error e
      | .ok acc2 =>
        if !fetch_history && allFilled acc2 then .ok acc2
        else processPage fetch_history configured acc2 rest

/-- The storage semantics of the loop body folded over the records the loop
examines, without the latest-only early break (which only truncates which
records are examined). -/
def processRecords (fetch_history : Bool) (configured : List Str) (acc : Acc) :
    List RawRelease → Except String Acc
  | [] => .ok acc
  | r :: rest =>
    if r.draft then processRecords fetch_history configured acc rest
    else
      match processRelease fetch_history configured acc r with
      | .error e => .error e
      | .ok acc2 => processRecords fetch_history configured acc2 rest

/-- One response of the release-listing endpoint, as the code inspects it:
a 403 carrying the rate-limit header, any other failing response (including
a 403 without the header), or a successful page with an optional
remaining-quota header. -/
inductive PageResp where
  | forbidden (remaining : Nat)
  | transportError
  | page (releases : List RawRelease) (remaining : Option Nat)
deriving DecidableEq

def per_page : Nat := 100

/-- Line 331 and line 409: the result used for an empty first page and for
a caught transport error, in both modes. -/
def neutralResult : Acc := [([], .latest none none)]

/-- Lines 304-409: the paging loop.  The second component counts the pages
requested from the release-listing endpoint.  A `none` first component
means the loop would request yet another page beyond the supplied stream. -/
def fetchGo (fetch_history : Bool) (configured : List Str) :
    List PageResp → Acc → Nat → Nat → Option (Except String Acc) × Nat
  | [], _, _, req => (none, req)
  | resp :: rest, acc, pageNum, req =>
    match resp with
    | .forbidden remaining =>
      if remaining = 0 then (some (.ok acc), req + 1)
      else (some (.ok neutralResult), req + 1)
    | .transportError => (some (.ok neutralResult), req + 1)
    | .page releases remaining =>
      if releases.isEmpty then
        if pageNum = 1 then (some (.ok neutralResult), req + 1)
        else (some (.ok acc), req + 1)
      else
        match processPage fetch_history configured acc releases with
        | .error e => (some (.error e), req + 1)
        | .ok acc2 =>
          if releases.length < per_page then (some (.ok acc2), req + 1)
          else
            match remaining with
            | some rem =>
              if rem < 1 then (some (.ok acc2), req + 1)
              else fetchGo fetch_history configured rest acc2 (pageNum + 1) (req + 1)
            | none => fetchGo fetch_history configured rest acc2 (pageNum + 1) (req + 1)

/-- get_latest_releases: initialize one slot per configured artifact, then
page through the responses starting at page 1. -/
def get_latest_releases (fetch_history : Bool) (configured : List Str)
    (pages : List PageResp) : Option (Except String Acc) × Nat :=
  fetchGo fetch_history configured pages (initAcc fetch_history configured) 1 0

/-- The output tree, as a map from path components to file content.
Directories need no separate modelling: mkdir(parents, exist_ok) never
fails on the paths the writer builds. -/
abbrev FS := List (List Str × Str)

def fsLookup : FS → List Str → Option Str
  | [], _ => none
  | (p0, c0) :: t, p => if p0 = p then some c0 else fsLookup t p

def fsInsert (fs : FS) (p : List Str) (c : Str) : FS := fs ++ [(p, c)]

/-- Lines 427-429: strip a leading artifact prefix plus separator from the
tag, once, when the artifact key is truthy (non-empty). -/
def strippedTag (artifact tag : Str) : Str :=
  if !artifact.isEmpty && (artifact ++ ['/']).isPrefixOf tag then tag.drop (artifact.length + 1)
  else tag

/-- Lines 417-433: root/owner/repo[/artifact]/stripped-tag.md as path
components. -/
def targetPath (root owner repo artifact tag : Str) : List Str :=
  (if artifact.isEmpty then [root, owner, repo] else [root, owner, repo, artifact]) ++
    [strippedTag artifact tag ++ ".md".data]

/-- Lines 443-452: the markdown document the writer emits. -/
def renderNotes (owner repo artifact : Str) (r : ReleaseInfo) : Str :=
  let release_type : Str := if r.is_prerelease then "Pre-release".data else "Stable Release".data
  let full_path : Str := owner ++ '/' :: repo ++ (if artifact.isEmpty then [] else '/' :: artifact)
  "# ".data ++ full_path ++ " - ".data ++ r.tag ++ " (".data ++ release_type ++
    ")\n\n## Release Notes\n\n".data ++ r.body ++ "\n".data

/-- save_release_notes (lines 411-457): skip when the target exists, write
otherwise; returns whether a file was written. -/
def save_release_notes (fs : FS) (root owner repo artifact : Str) (r : ReleaseInfo) : FS × Bool :=
  let filepath := targetPath root owner repo artifact r.tag
  if (fsLookup fs filepath).isSome then (fs, false)
  else (fsInsert fs filepath (renderNotes owner repo artifact r), true)

/-- save_release_notes as called with a dynamically typed argument.  When
the history loop hands it `None`, line 427 raises AttributeError inside the
try block and the except handler itself re-raises it from line 460
(`tag=release.tag` in the diagnostic f-string), so the call raises. -/
def save_release_notes_dyn (fs : FS) (root owner repo artifact : Str) (r : Option ReleaseInfo) :
    Except String (FS × Bool) :=
  match r with
  | none => .error "AttributeError"
  | some info => .ok (save_release_notes fs root owner repo artifact info)

/-- What Python iteration over one accumulator value yields in the
history-mode loop of lines 476-483: the elements of a list value, or the
two components of a pair value (each an Option). -/
def iterVals : AccVal → List (Option ReleaseInfo)
  | .hist rs => rs.map some
  | .latest s p => [s, p]

def saveList (root owner repo artifact : Str) :
    FS → List (Option ReleaseInfo) → Except String FS
  | fs, [] => .ok fs
  | fs, r :: t =>
    match save_release_notes_dyn fs root owner repo artifact r with
    | .error e => .error e
    | .ok (fs2, _) => saveList root owner repo artifact fs2 t

/-- Lines 474-483: the history-mode save loop over the accumulator. -/
def histSave (root owner repo : Str) : FS → Acc → Except String FS
  | fs, [] => .ok fs
  | fs, (k, v) :: t =>
    match saveList root owner repo k fs (iterVals v) with
    | .error e => .error e
    | .ok fs2 => histSave root owner repo fs2 t

/-- Lines 484-498: the latest-only save loop.  A list value would be
unpacked as a pair at line 486; latest-only runs never hold list values, so
that branch is modelled as the unpacking error. -/
def latestSave (root owner repo : Str) : FS → Acc → Except String FS
  | fs, [] => .ok fs
  | _, (_, .hist _) :: _ => .error "ValueError"
  | fs, (k, .latest s p) :: t =>
    let fs1 := match s with
      | some info => (save_release_notes fs root owner repo k info).1
      | none => fs
    let fs2 := match p with
      | some info => (save_release_notes fs1 root owner repo k info).1
      | none => fs1
    latestSave root owner repo fs2 t

/-- One repository of the batch: its owner/repo string, its configured
artifact allow-list, and the page responses its fetch will see. -/
structure RepoJob where
  repoStr : Str
  configured : List Str
  pages : List PageResp
deriving DecidableEq

/-- process_repository (lines 463-516).  An invalid repository string is
reported and skipped (the ValueError of the unpacking is caught); an
exception escaping the fetch or the save loops propagates to the caller. -/
def process_repository (fetch_history : Bool) (root : Str) (fs : FS) (job : RepoJob) :
    Except String FS :=
  match splitOnChar '/' (trimStr job.repoStr) with
  | [owner, repo_name] =>
    match (get_latest_releases fetch_history job.configured job.pages).1 with
    | none => .error "model: page stream exhausted"
    | some (.error e) => .error e
    | some (.ok acc) =>
      if fetch_history then histSave root owner repo_name fs acc
      else latestSave root owner repo_name fs acc
  | _ => .ok fs

/-- The repository loop of main (lines 518-524); an exception escaping
process_repository aborts the whole batch. -/
def main_loop (fetch_history : Bool) (root : Str) : FS → List RepoJob → Except String FS
  | fs, [] => .ok fs
  | fs, job :: rest =>
    match process_repository fetch_history root fs job with
    | .error e => .error e
    | .ok fs2 => main_loop fetch_history root fs2 rest

/-! Basic lemmas about the accumulator dictionary. -/

instance : Inhabited AccVal := ⟨.latest none none⟩

instance : Inhabited ReleaseInfo := ⟨⟨[], [], false⟩⟩

theorem keysOf_nil : keysOf [] = [] := rfl

theorem keysOf_cons (kv : Str × AccVal) (t : Acc) : keysOf (kv :: t) = kv.1 :: keysOf t := rfl

theorem lookupKey_setKey (acc : Acc) (k k' : Str) (v : AccVal) :
    lookupKey (setKey acc k v) k' = if k = k' then some v else lookupKey acc k' := by
  induction acc with
  | nil => simp [setKey, lookupKey]
  | cons kv t ih =>
    obtain ⟨k0, v0⟩ := kv
    by_cases h0 : k0 = k
    · subst h0
      by_cases h1 : k0 = k' <;> simp [setKey, lookupKey, h1]
    · by_cases h1 : k0 = k' <;> by_cases h2 : k = k' <;>
        simp_all [setKey, lookupKey]

theorem mem_keysOf_setKey (acc : Acc) (k k' : Str) (v : AccVal) :
    k' ∈ keysOf (setKey acc k v) ↔ k' ∈ keysOf acc ∨ k' = k := by
  induction acc with
  | nil => simp [setKey, keysOf]
  | cons kv t ih =>
    obtain ⟨k0, v0⟩ := kv
    by_cases h0 : k0 = k
    · subst h0; simp [setKey, keysOf]; tauto
    · simp [setKey, keysOf, h0] at ih ⊢
      rw [ih]; tauto

theorem lookupKey_eq_none_iff (acc : Acc) (k : Str) :
    lookupKey acc k = none ↔ k ∉ keysOf acc := by
  induction acc with
  | nil => simp [lookupKey, keysOf]
  | cons kv t ih =>
    obtain ⟨k0, v0⟩ := kv
    by_cases h0 : k0 = k
    · subst h0; simp [lookupKey, keysOf]
    · simp only [lookupKey, keysOf_cons, if_neg h0, List.mem_cons]
      rw [ih]
      constructor
      · intro hn h
        cases h with
        | inl h1 => exact h0 h1.symm
        | inr h2 => exact hn h2
      · intro hn h2
        exact hn (Or.inr h2)

theorem mem_keysOf_of_lookup (acc : Acc) (k : Str) (v : AccVal)
    (h : lookupKey acc k = some v) : k ∈ keysOf acc := by
  by_contra hmem
  rw [← lookupKey_eq_none_iff] at hmem
  simp [hmem] at h

theorem setKey_absent (acc : Acc) (k : Str) (v : AccVal)
    (h : lookupKey acc k = none) : setKey acc k v = acc ++ [(k, v)] := by
  induction acc with
  | nil => simp [setKey]
  | cons kv t ih =>
    obtain ⟨k0, v0⟩ := kv
    by_cases h0 : k0 = k <;> simp_all [setKey, lookupKey]

/-- All values of the dict satisfy a predicate. -/
def accAll (P : AccVal → Bool) (acc : Acc) : Bool := acc.all fun kv => P kv.2

theorem accAll_nil (P : AccVal → Bool) : accAll P [] = true := rfl

theorem accAll_cons (P : AccVal → Bool) (kv : Str × AccVal) (t : Acc) :
    accAll P (kv :: t) = (P kv.2 && accAll P t) := rfl

theorem accAll_setKey (P : AccVal → Bool) (acc : Acc) (k : Str) (v : AccVal)
    (h1 : accAll P acc = true) (h2 : P v = true) : accAll P (setKey acc k v) = true := by
  induction acc with
  | nil => simp [setKey, accAll_cons, accAll_nil, h2]
  | cons kv t ih =>
    obtain ⟨k0, v0⟩ := kv
    rw [accAll_cons] at h1
    simp only [Bool.and_eq_true] at h1
    by_cases h0 : k0 = k
    · simp only [setKey, if_pos h0, accAll_cons, Bool.and_eq_true]
      exact ⟨h2, h1.2⟩
    · simp only [setKey, if_neg h0, accAll_cons, Bool.and_eq_true]
      exact ⟨h1.1, ih h1.2⟩

theorem accAll_lookup (P : AccVal → Bool) (acc : Acc) (k : Str) (v : AccVal)
    (h : accAll P acc = true) (hl : lookupKey acc k = some v) : P v = true := by
  induction acc with
  | nil => simp [lookupKey] at hl
  | cons kv t ih =>
    obtain ⟨k0, v0⟩ := kv
    rw [accAll_cons] at h
    simp only [Bool.and_eq_true] at h
    by_cases h0 : k0 = k
    · rw [lookupKey, if_pos h0] at hl
      cases hl
      exact h.1
    · rw [lookupKey, if_neg h0] at hl
      exact ih h.2 hl

theorem mem_keysOf_foldl_setKey (configured : List Str) (v : AccVal) (acc : Acc) (k : Str) :
    k ∈ keysOf (configured.foldl (fun a x => setKey a x v) acc) ↔
      k ∈ keysOf acc ∨ k ∈ configured := by
  induction configured generalizing acc with
  | nil => simp
  | cons a t ih =>
    simp only [List.foldl_cons, ih, mem_keysOf_setKey, List.mem_cons]
    tauto

theorem mem_keysOf_initAcc (fetch_history : Bool) (configured : List Str) (k : Str) :
    k ∈ keysOf (initAcc fetch_history configured) ↔ k ∈ configured := by
  unfold initAcc
  rw [mem_keysOf_foldl_setKey]
  simp [keysOf]

theorem accAll_foldl_setKey (P : AccVal → Bool) (configured : List Str) (v : AccVal) (acc : Acc)
    (h1 : accAll P acc = true) (h2 : P v = true) :
    accAll P (configured.foldl (fun a x => setKey a x v) acc) = true := by
  induction configured generalizing acc with
  | nil => exact h1
  | cons a t ih => exact ih _ (accAll_setKey P acc a v h1 h2)

/-- Shape of a latest-only value. -/
def latestShaped : AccVal → Bool
  | .latest _ _ => true
  | .hist _ => false

/-- Shape of a history value. -/
def histShaped : AccVal → Bool
  | .hist _ => true
  | .latest _ _ => false

theorem accAll_latestShaped_initAcc (configured : List Str) :
    accAll latestShaped (initAcc false configured) = true :=
  accAll_foldl_setKey _ configured _ [] rfl rfl

theorem accAll_histShaped_initAcc (configured : List Str) :
    accAll histShaped (initAcc true configured) = true :=
  accAll_foldl_setKey _ configured _ [] rfl rfl

/-- The stable component of the latest-only slot of a key (absent key or
history value: none). -/
def stableSlot (acc : Acc) (k : Str) : Option ReleaseInfo :=
  match lookupKey acc k with
  | some (.latest s _) => s
  | _ => none

/-- The prerelease component of the latest-only slot of a key. -/
def preSlot (acc : Acc) (k : Str) : Option ReleaseInfo :=
  match lookupKey acc k with
  | some (.latest _ p) => p
  | _ => none

theorem stableSlot_setKey (acc : Acc) (k k' : Str) (v : AccVal) :
    stableSlot (setKey acc k v) k' =
      if k = k' then (match v with | .latest s _ => s | .hist _ => none)
      else stableSlot acc k' := by
  unfold stableSlot
  rw [lookupKey_setKey]
  by_cases h : k = k' <;> cases v <;> simp [h]

theorem preSlot_setKey (acc : Acc) (k k' : Str) (v : AccVal) :
    preSlot (setKey acc k v) k' =
      if k = k' then (match v with | .latest _ p => p | .hist _ => none)
      else preSlot acc k' := by
  unfold preSlot
  rw [lookupKey_setKey]
  by_cases h : k = k' <;> cases v <;> simp [h]

theorem stableSlot_some_mem (acc : Acc) (k : Str) (x : ReleaseInfo)
    (h : stableSlot acc k = some x) : k ∈ keysOf acc := by
  unfold stableSlot at h
  cases hl : lookupKey acc k with
  | none => simp [hl] at h
  | some v => exact mem_keysOf_of_lookup acc k v hl

theorem preSlot_some_mem (acc : Acc) (k : Str) (x : ReleaseInfo)
    (h : preSlot acc k = some x) : k ∈ keysOf acc := by
  unfold preSlot at h
  cases hl : lookupKey acc k with
  | none => simp [hl] at h
  | some v => exact mem_keysOf_of_lookup acc k v hl

theorem getPair_of_shaped (acc : Acc) (k : Str) (h : accAll latestShaped acc = true) :
    getPair acc k = .ok (stableSlot acc k, preSlot acc k) := by
  unfold getPair stableSlot preSlot
  cases hl : lookupKey acc k with
  | none => simp
  | some v =>
    cases v with
    | hist rs => have := accAll_lookup _ _ _ _ h hl; simp [latestShaped] at this
    | latest s p => simp

/-! Lemmas about classification and the fallback slot initialization. -/

theorem classifyInit_fst (fetch_history : Bool) (configured : List Str) (acc : Acc)
    (r : RawRelease) : (classifyInit fetch_history configured acc r).1 = classifyKey configured r := by
  unfold classifyInit classifyKey
  split <;> rfl

theorem snd_classifyInit (fetch_history : Bool) (configured : List Str) (acc : Acc)
    (r : RawRelease) :
    (classifyInit fetch_history configured acc r).2 = acc ∨
      ((classifyInit fetch_history configured acc r).2 =
          setKey acc (classifyKey configured r) (initVal fetch_history) ∧
        lookupKey acc (classifyKey configured r) = none) := by
  unfold classifyInit classifyKey
  split
  · by_cases hn : (lookupKey acc (beforeSlash r.tag_name)).isNone
    · right
      rw [Option.isNone_iff_eq_none] at hn
      simp [hn]
    · left; simp [hn]
  · left; rfl

theorem initVal_stable (fetch_history : Bool) :
    (match initVal fetch_history with | .latest s _ => s | .hist _ => none) =
      (none : Option ReleaseInfo) := by
  cases fetch_history <;> rfl

theorem initVal_pre (fetch_history : Bool) :
    (match initVal fetch_history with | .latest _ p => p | .hist _ => none) =
      (none : Option ReleaseInfo) := by
  cases fetch_history <;> rfl

theorem stableSlot_classifyInit (fetch_history : Bool) (configured : List Str) (acc : Acc)
    (r : RawRelease) (k : Str) :
    stableSlot (classifyInit fetch_history configured acc r).2 k = stableSlot acc k := by
  rcases snd_classifyInit fetch_history configured acc r with h | ⟨h, hnone⟩
  · rw [h]
  · rw [h, stableSlot_setKey]
    by_cases hk : classifyKey configured r = k
    · subst hk
      rw [if_pos rfl, initVal_stable]
      unfold stableSlot
      rw [hnone]
    · rw [if_neg hk]

theorem preSlot_classifyInit (fetch_history : Bool) (configured : List Str) (acc : Acc)
    (r : RawRelease) (k : Str) :
    preSlot (classifyInit fetch_history configured acc r).2 k = preSlot acc k := by
  rcases snd_classifyInit fetch_history configured acc r with h | ⟨h, hnone⟩
  · rw [h]
  · rw [h, preSlot_setKey]
    by_cases hk : classifyKey configured r = k
    · subst hk
      rw [if_pos rfl, initVal_pre]
      unfold preSlot
      rw [hnone]
    · rw [if_neg hk]

theorem accAll_classifyInit (P : AccVal → Bool) (fetch_history : Bool) (configured : List Str)
    (acc : Acc) (r : RawRelease) (h : accAll P acc = true)
    (hv : P (initVal fetch_history) = true) :
    accAll P (classifyInit fetch_history configured acc r).2 = true := by
  rcases snd_classifyInit fetch_history configured acc r with h2 | ⟨h2, _⟩
  · rw [h2]; exact h
  · rw [h2]; exact accAll_setKey P acc _ _ h hv

theorem mem_keysOf_classifyInit_of (fetch_history : Bool) (configured : List Str) (acc : Acc)
    (r : RawRelease) (k : Str) (h : k ∈ keysOf acc) :
    k ∈ keysOf (classifyInit fetch_history configured acc r).2 := by
  rcases snd_classifyInit fetch_history configured acc r with h2 | ⟨h2, _⟩
  · rw [h2]; exact h
  · rw [h2, mem_keysOf_setKey]; exact Or.inl h

theorem mem_keysOf_classifyInit_elim (fetch_history : Bool) (configured : List Str) (acc : Acc)
    (r : RawRelease) (k : Str) (h : k ∈ keysOf (classifyInit fetch_history configured acc r).2) :
    k ∈ keysOf acc ∨ k = classifyKey configured r := by
  rcases snd_classifyInit fetch_history configured acc r with h2 | ⟨h2, _⟩
  · rw [h2] at h; exact Or.inl h
  · rw [h2, mem_keysOf_setKey] at h; exact h

/-! The one-record storage step in latest-only mode. -/

theorem storeLatest_shaped (acc : Acc) (k : Str) (info : ReleaseInfo) (pre : Bool)
    (h : accAll latestShaped acc = true) :
    storeLatest acc k info pre = .ok
      (if pre && (preSlot acc k).isNone then setKey acc k (.latest (stableSlot acc k) (some info))
       else if !pre && (stableSlot acc k).isNone then
         setKey acc k (.latest (some info) (preSlot acc k))
       else acc) := by
  unfold storeLatest
  rw [getPair_of_shaped _ _ h]

theorem processRelease_latest (configured : List Str) (acc : Acc) (r : RawRelease)
    (h : accAll latestShaped acc = true) :
    ∃ acc2, processRelease false configured acc r = .ok acc2 ∧
      accAll latestShaped acc2 = true ∧
      (∀ k, stableSlot acc2 k =
        if k = classifyKey configured r ∧ stableSlot acc k = none ∧ r.prerelease = false
        then some (mkInfo r) else stableSlot acc k) ∧
      (∀ k, preSlot acc2 k =
        if k = classifyKey configured r ∧ preSlot acc k = none ∧ r.prerelease = true
        then some (mkInfo r) else preSlot acc k) ∧
      (∀ k, k ∈ keysOf acc2 ↔ k ∈ keysOf acc ∨ k = classifyKey configured r) := by
  have h1 : accAll latestShaped (classifyInit false configured acc r).2 = true :=
    accAll_classifyInit _ _ _ _ _ h rfl
  have hpr : processRelease false configured acc r =
      storeLatest (classifyInit false configured acc r).2 (classifyKey configured r)
        (mkInfo r) r.prerelease := by
    rw [← classifyInit_fst false configured acc r]; rfl
  rw [hpr, storeLatest_shaped _ _ _ _ h1, stableSlot_classifyInit, preSlot_classifyInit]
  cases hp : r.prerelease with
  | true =>
    cases hpo : preSlot acc (classifyKey configured r) with
    | none =>
      refine ⟨setKey (classifyInit false configured acc r).2 (classifyKey configured r)
          (AccVal.latest (stableSlot acc (classifyKey configured r)) (some (mkInfo r))),
          by simp [hp, hpo], ?_, ?_, ?_, ?_⟩
      · exact accAll_setKey _ _ _ _ h1 rfl
      · intro k
        rw [stableSlot_setKey]
        by_cases hk : classifyKey configured r = k
        · subst hk; simp [hp]
        · rw [if_neg hk, stableSlot_classifyInit]
          simp [hp, Ne.symm hk]
      · intro k
        rw [preSlot_setKey]
        by_cases hk : classifyKey configured r = k
        · subst hk; simp [hp, hpo]
        · rw [if_neg hk, preSlot_classifyInit]
          simp [Ne.symm hk]
      · intro k
        rw [mem_keysOf_setKey]
        constructor
        · rintro (hmem | hk)
          · exact mem_keysOf_classifyInit_elim _ _ _ _ _ hmem
          · exact Or.inr hk
        · rintro (hmem | hk)
          · exact Or.inl (mem_keysOf_classifyInit_of _ _ _ _ _ hmem)
          · exact Or.inr hk
    | some x =>
      refine ⟨(classifyInit false configured acc r).2, by simp [hp, hpo], h1, ?_, ?_, ?_⟩
      · intro k
        rw [stableSlot_classifyInit]
        simp [hp]
      · intro k
        rw [preSlot_classifyInit]
        by_cases hk : k = classifyKey configured r
        · subst hk; simp [hpo]
        · simp [hk]
      · intro k
        constructor
        · exact fun hmem => mem_keysOf_classifyInit_elim _ _ _ _ _ hmem
        · rintro (hmem | hk)
          · exact mem_keysOf_classifyInit_of _ _ _ _ _ hmem
          · subst hk
            refine preSlot_some_mem _ _ x ?_
            rw [preSlot_classifyInit]
            exact hpo
  | false =>
    cases hso : stableSlot acc (classifyKey configured r) with
    | none =>
      refine ⟨setKey (classifyInit false configured acc r).2 (classifyKey configured r)
          (AccVal.latest (some (mkInfo r)) (preSlot acc (classifyKey configured r))),
          by simp [hp, hso], ?_, ?_, ?_, ?_⟩
      · exact accAll_setKey _ _ _ _ h1 rfl
      · intro k
        rw [stableSlot_setKey]
        by_cases hk : classifyKey configured r = k
        · subst hk; simp [hp, hso]
        · rw [if_neg hk, stableSlot_classifyInit]
          simp [Ne.symm hk]
      · intro k
        rw [preSlot_setKey]
        by_cases hk : classifyKey configured r = k
        · subst hk; simp [hp]
        · rw [if_neg hk, preSlot_classifyInit]
          simp [hp, Ne.symm hk]
      · intro k
        rw [mem_keysOf_setKey]
        constructor
        · rintro (hmem | hk)
          · exact mem_keysOf_classifyInit_elim _ _ _ _ _ hmem
          · exact Or.inr hk
        · rintro (hmem | hk)
          · exact Or.inl (mem_keysOf_classifyInit_of _ _ _ _ _ hmem)
          · exact Or.inr hk
    | some x =>
      refine ⟨(classifyInit false configured acc r).2, by simp [hp, hso], h1, ?_, ?_, ?_⟩
      · intro k
        rw [stableSlot_classifyInit]
        by_cases hk : k = classifyKey configured r
        · subst hk; simp [hso]
        · simp [hk]
      · intro k
        rw [preSlot_classifyInit]
        simp [hp]
      · intro k
        constructor
        · exact fun hmem => mem_keysOf_classifyInit_elim _ _ _ _ _ hmem
        · rintro (hmem | hk)
          · exact mem_keysOf_classifyInit_of _ _ _ _ _ hmem
          · subst hk
            refine stableSlot_some_mem _ _ x ?_
            rw [stableSlot_classifyInit]
            exact hso

/-! Folding the storage step over a record list. -/

/-- Option choice keeping the first filled value. -/
def slotOr : Option ReleaseInfo → Option ReleaseInfo → Option ReleaseInfo
  | some x, _ => some x
  | none, b => b

theorem slotOr_some (x : ReleaseInfo) (b : Option ReleaseInfo) : slotOr (some x) b = some x := rfl

theorem slotOr_none (b : Option ReleaseInfo) : slotOr none b = b := rfl

/-- The first non-draft record of the given prerelease category that the
classifier assigns to key k, turned into its ReleaseInfo. -/
def firstOfCat (configured : List Str) (k : Str) (pre : Bool) : List RawRelease → Option ReleaseInfo
  | [] => none
  | r :: rest =>
    if r.draft = false ∧ classifyKey configured r = k ∧ r.prerelease = pre then some (mkInfo r)
    else firstOfCat configured k pre rest

theorem firstOfCat_cons (configured : List Str) (k : Str) (pre : Bool) (r : RawRelease)
    (rest : List RawRelease) :
    firstOfCat configured k pre (r :: rest) =
      if r.draft = false ∧ classifyKey configured r = k ∧ r.prerelease = pre then some (mkInfo r)
      else firstOfCat configured k pre rest := rfl

theorem processRecords_latest_slots (configured : List Str) (rs : List RawRelease)
    (acc acc2 : Acc) (k : Str) (h : accAll latestShaped acc = true)
    (hrun : processRecords false configured acc rs = .ok acc2) :
    stableSlot acc2 k = slotOr (stableSlot acc k) (firstOfCat configured k false rs) ∧
      preSlot acc2 k = slotOr (preSlot acc k) (firstOfCat configured k true rs) := by
  induction rs generalizing acc with
  | nil =>
    unfold processRecords at hrun
    cases hrun
    cases hs : stableSlot acc2 k <;> cases hp : preSlot acc2 k <;> simp [firstOfCat, slotOr]
  | cons r rest ih =>
    unfold processRecords at hrun
    by_cases hd : r.draft
    · rw [if_pos hd] at hrun
      have hfs : firstOfCat configured k false (r :: rest) = firstOfCat configured k false rest := by
        rw [firstOfCat_cons, if_neg]
        intro hcon
        rw [hd] at hcon
        simp at hcon
      have hfp : firstOfCat configured k true (r :: rest) = firstOfCat configured k true rest := by
        rw [firstOfCat_cons, if_neg]
        intro hcon
        rw [hd] at hcon
        simp at hcon
      rw [hfs, hfp]
      exact ih acc h hrun
    · rw [if_neg hd] at hrun
      obtain ⟨accm, heq, hsh, hst, hpre, _⟩ := processRelease_latest configured acc r h
      rw [heq] at hrun
      obtain ⟨ihs, ihp⟩ := ih accm hsh hrun
      rw [Bool.not_eq_true] at hd
      constructor
      · rw [ihs, hst k]
        by_cases hc : k = classifyKey configured r ∧ stableSlot acc k = none ∧
            r.prerelease = false
        · rw [if_pos hc]
          rw [firstOfCat_cons, if_pos ⟨hd, hc.1.symm, hc.2.2⟩, hc.2.1]
          rfl
        · rw [if_neg hc]
          rw [firstOfCat_cons]
          by_cases hf : r.draft = false ∧ classifyKey configured r = k ∧ r.prerelease = false
          · rw [if_pos hf]
            cases hs : stableSlot acc k with
            | none => exact absurd ⟨hf.2.1.symm, hs, hf.2.2⟩ hc
            | some x => rfl
          · rw [if_neg hf]
      · rw [ihp, hpre k]
        by_cases hc : k = classifyKey configured r ∧ preSlot acc k = none ∧
            r.prerelease = true
        · rw [if_pos hc]
          rw [firstOfCat_cons, if_pos ⟨hd, hc.1.symm, hc.2.2⟩, hc.2.1]
          rfl
        · rw [if_neg hc]
          rw [firstOfCat_cons]
          by_cases hf : r.draft = false ∧ classifyKey configured r = k ∧ r.prerelease = true
          · rw [if_pos hf]
            cases hs : preSlot acc k with
            | none => exact absurd ⟨hf.2.1.symm, hs, hf.2.2⟩ hc
            | some x => rfl
          · rw [if_neg hf]

theorem processRecords_latest_keys (configured : List Str) (rs : List RawRelease)
    (acc acc2 : Acc) (k : Str) (h : accAll latestShaped acc = true)
    (hrun : processRecords false configured acc rs = .ok acc2) :
    k ∈ keysOf acc2 ↔
      k ∈ keysOf acc ∨ ∃ r, r ∈ rs ∧ r.draft = false ∧ classifyKey configured r = k := by
  induction rs generalizing acc with
  | nil =>
    unfold processRecords at hrun
    cases hrun
    simp
  | cons r rest ih =>
    unfold processRecords at hrun
    by_cases hd : r.draft
    · rw [if_pos hd] at hrun
      rw [ih acc h hrun]
      constructor
      · rintro (hm | ⟨r2, hm2, hnd, hck⟩)
        · exact Or.inl hm
        · exact Or.inr ⟨r2, List.mem_cons_of_mem r hm2, hnd, hck⟩
      · rintro (hm | ⟨r2, hm2, hnd, hck⟩)
        · exact Or.inl hm
        · rcases List.mem_cons.mp hm2 with hh | ht
          · subst hh; rw [hd] at hnd; cases hnd
          · exact Or.inr ⟨r2, ht, hnd, hck⟩
    · rw [if_neg hd] at hrun
      obtain ⟨accm, heq, hsh, _, _, hkeys⟩ := processRelease_latest configured acc r h
      rw [heq] at hrun
      rw [ih accm hsh hrun]
      rw [Bool.not_eq_true] at hd
      constructor
      · rintro (hm | ⟨r2, hm2, hnd, hck⟩)
        · rcases (hkeys k).mp hm with hm0 | hk0
          · exact Or.inl hm0
          · exact Or.inr ⟨r, List.mem_cons_self r rest, hd, hk0.symm⟩
        · exact Or.inr ⟨r2, List.mem_cons_of_mem r hm2, hnd, hck⟩
      · rintro (hm | ⟨r2, hm2, hnd, hck⟩)
        · exact Or.inl ((hkeys k).mpr (Or.inl hm))
        · rcases List.mem_cons.mp hm2 with hh | ht
          · subst hh
            exact Or.inl ((hkeys k).mpr (Or.inr hck.symm))
          · exact Or.inr ⟨r2, ht, hnd, hck⟩

/-! History-mode storage facts. -/

theorem storeHist_ok (acc : Acc) (k : Str) (info : ReleaseInfo) (acc2 : Acc)
    (h : storeHist acc k info = .ok acc2) :
    ∃ rs, lookupKey acc k = some (.hist rs) ∧ acc2 = setKey acc k (.hist (rs ++ [info])) := by
  unfold storeHist at h
  cases hl : lookupKey acc k with
  | none => rw [hl] at h; cases h
  | some v =>
    cases v with
    | latest s p => rw [hl] at h; cases h
    | hist rs =>
      rw [hl] at h
      cases h
      exact ⟨rs, rfl, rfl⟩

theorem processRecords_hist_shape (configured : List Str) (rs : List RawRelease)
    (acc acc2 : Acc) (h : accAll histShaped acc = true)
    (hrun : processRecords true configured acc rs = .ok acc2) :
    accAll histShaped acc2 = true := by
  induction rs generalizing acc with
  | nil => unfold processRecords at hrun; cases hrun; exact h
  | cons r rest ih =>
    unfold processRecords at hrun
    by_cases hd : r.draft
    · rw [if_pos hd] at hrun
      exact ih acc h hrun
    · rw [if_neg hd] at hrun
      have hci : accAll histShaped (classifyInit true configured acc r).2 = true :=
        accAll_classifyInit _ _ _ _ _ h rfl
      cases hpe : processRelease true configured acc r with
      | error e => rw [hpe] at hrun; cases hrun
      | ok accm =>
        rw [hpe] at hrun
        have hpe2 : storeHist (classifyInit true configured acc r).2
            (classifyInit true configured acc r).1 (mkInfo r) = .ok accm := hpe
        obtain ⟨rs0, _, hset⟩ := storeHist_ok _ _ _ _ hpe2
        subst hset
        exact ih _ (accAll_setKey histShaped (classifyInit true configured acc r).2
          (classifyInit true configured acc r).1 (.hist (rs0 ++ [mkInfo r])) hci rfl) hrun

/-! String lemmas for the tag-derived key and the writer's prefix strip. -/

theorem splitOnChar_ne_nil (c : Char) (s : Str) : splitOnChar c s ≠ [] := by
  induction s with
  | nil => simp [splitOnChar]
  | cons x t ih =>
    unfold splitOnChar
    by_cases h : x = c
    · simp [h]
    · simp only [if_neg h]
      cases hs : splitOnChar c t with
      | nil => simp
      | cons a b => simp

theorem beforeSlash_eq_takeWhile (s : Str) :
    beforeSlash s = s.takeWhile (fun x => x != '/') := by
  induction s with
  | nil => rfl
  | cons x t ih =>
    by_cases h : x = '/'
    · subst h
      unfold beforeSlash splitOnChar
      simp [List.takeWhile]
    · unfold beforeSlash splitOnChar
      simp only [if_neg h]
      cases hs : splitOnChar '/' t with
      | nil => exact absurd hs (splitOnChar_ne_nil _ _)
      | cons a b =>
        unfold beforeSlash at ih
        rw [hs] at ih
        simp only [List.headD_cons] at ih ⊢
        rw [List.takeWhile_cons]
        have hb : (x != '/') = true := by simp [h]
        rw [hb]
        simp only [if_true]
        rw [ih]

theorem isPrefixOf_append_self (l t : List Char) : l.isPrefixOf (l ++ t) = true := by
  induction l with
  | nil => simp [List.isPrefixOf]
  | cons a l ih => simp [List.isPrefixOf, ih]

theorem strippedTag_strips_once (artifact rest : Str) (h : artifact ≠ []) :
    strippedTag artifact (artifact ++ '/' :: rest) = rest := by
  have he : artifact.isEmpty = false := by
    cases artifact with
    | nil => exact absurd rfl h
    | cons a t => rfl
  have hsplit : artifact ++ '/' :: rest = (artifact ++ ['/']) ++ rest := by simp
  have hp : (artifact ++ ['/']).isPrefixOf (artifact ++ '/' :: rest) = true := by
    rw [hsplit]; exact isPrefixOf_append_self _ _
  unfold strippedTag
  rw [he, hp]
  simp only [Bool.not_false, Bool.true_and, if_true]
  rw [hsplit]
  have hlen : (artifact ++ ['/']).length = artifact.length + 1 := by simp
  rw [← hlen, List.drop_left]

theorem strippedTag_keeps_tag (artifact tag : Str)
    (h : (artifact ++ ['/']).isPrefixOf tag = false) : strippedTag artifact tag = tag := by
  unfold strippedTag
  rw [h]
  simp

theorem strippedTag_empty_key (tag : Str) : strippedTag [] tag = tag := rfl

/-! Filesystem lemmas for the writer. -/

theorem fsLookup_insert_self (fs : FS) (p : List Str) (c : Str) (h : fsLookup fs p = none) :
    fsLookup (fsInsert fs p c) p = some c := by
  induction fs with
  | nil => simp [fsInsert, fsLookup]
  | cons e t ih =>
    obtain ⟨p0, c0⟩ := e
    unfold fsLookup at h
    by_cases h0 : p0 = p
    · rw [if_pos h0] at h; cases h
    · rw [if_neg h0] at h
      show fsLookup ((p0, c0) :: (t ++ [(p, c)])) p = some c
      unfold fsLookup
      rw [if_neg h0]
      exact ih h

/-! Spec-side comparison definitions and concrete inputs. -/

/-- Modelled from the claim wording for C2: the configured allow-list union
the keys derived via the tag-prefix fallback from the non-draft records
encountered. -/
def claimedKeySet (configured : List Str) (records : List RawRelease) : List Str :=
  configured ++ records.filterMap fun r =>
    if r.draft = false ∧ (matchOn configured r).isEmpty = true ∧
        r.tag_name.contains '/' = true
    then some (beforeSlash r.tag_name) else none

/-- Modelled from the claim wording for C5: the first configured key whose
lowercase form appears as a substring of the lowercased name, tag or body. -/
def specFirstMatchKey (configured : List Str) (r : RawRelease) : Option Str :=
  configured.find? fun a =>
    matchesFields a (lowerOpt r.name) (toLowerStr r.tag_name) (lowerOpt r.body)

/-- Keys of a fetch result (empty for an error or an exhausted stream). -/
def keysOfResult : Option (Except String Acc) → List Str
  | some (.ok acc) => keysOf acc
  | _ => []

/-- Whether a page-loop result is a success whose accumulator has every
slot of every key filled. -/
def okAllFilled : Except String Acc → Bool
  | .ok a => allFilled a
  | .error _ => false

/-- The error message of a batch outcome, if any. -/
def errOf : Except String FS → Option String
  | .error e => some e
  | .ok _ => none

/-- Whether a batch outcome is a success. -/
def isOkFS : Except String FS → Bool
  | .ok _ => true
  | .error _ => false

/-- A stable record with tag v1 and no name or body. -/
def recStable : RawRelease := ⟨"v1".data, none, none, false, false⟩

/-- A prerelease record with tag v2. -/
def recPre : RawRelease := ⟨"v2".data, none, none, false, true⟩

/-- A second stable record with tag v9, classified to the same key as
recStable. -/
def recStable2 : RawRelease := ⟨"v9".data, none, none, false, false⟩

/-- The stable record of the repository test data: no artifact matches and
the tag has no separator. -/
def recNoMatch : RawRelease :=
  ⟨"v1.0.0".data, some "Version 1.0.0".data, some "Regular release notes".data, false, false⟩

/-- A full page (100 records) whose first two records fill both slots of
the single configured key. -/
def pageFull : List RawRelease := recStable :: recPre :: List.replicate 98 recStable

/-! Claim C4. -/

/-- C4: in latest-only mode each category slot of each key is
write-once: after the storage step runs over any list of records in
arrival order, the stable (resp. prerelease) slot of a key holds the value
it already had if it was filled, and otherwise the first non-draft record
of that category classified to that key; every later record of the same
category for the same key is discarded. -/
theorem latest_mode_first_seen_wins (configured : List Str) (rs : List RawRelease)
    (acc acc2 : Acc) (k : Str) (hshape : accAll latestShaped acc = true)
    (hrun : processRecords false configured acc rs = .ok acc2) :
    stableSlot acc2 k = slotOr (stableSlot acc k) (firstOfCat configured k false rs) ∧
      preSlot acc2 k = slotOr (preSlot acc k) (firstOfCat configured k true rs) :=
  processRecords_latest_slots configured rs acc acc2 k hshape hrun

/-- C4 witness: two stable records for the same key; the slot keeps the
first one. -/
theorem latest_mode_first_seen_wins_witness :
    stableSlot [([], .latest (some (mkInfo recStable)) none)] [] =
        slotOr (stableSlot (initAcc false [[]]) [])
          (firstOfCat [[]] [] false [recStable, recStable2]) ∧
      preSlot [([], .latest (some (mkInfo recStable)) none)] [] =
        slotOr (preSlot (initAcc false [[]]) [])
          (firstOfCat [[]] [] true [recStable, recStable2]) :=
  latest_mode_first_seen_wins [[]] [recStable, recStable2] (initAcc false [[]])
    [([], .latest (some (mkInfo recStable)) none)] [] (by decide) (by rfl)

/-! Claim C6. -/

/-- C6: for a record that matches no configured key and whose tag contains
a separator, the assigned key is the part of the tag before the first
separator, and when that key has no slot yet a fresh slot is appended,
initialized as an empty list in history mode and as a pair of absent
values in latest-only mode; a key that already has a slot leaves the
accumulator unchanged. -/
theorem tag_derived_fallback (fetch_history : Bool) (configured : List Str) (acc : Acc)
    (r : RawRelease) (hm : matchOn configured r = [])
    (hs : r.tag_name.contains '/' = true) :
    (classifyInit fetch_history configured acc r).1 = beforeSlash r.tag_name ∧
      classifyKey configured r = beforeSlash r.tag_name ∧
      beforeSlash r.tag_name = r.tag_name.takeWhile (fun x => x != '/') ∧
      (lookupKey acc (beforeSlash r.tag_name) = none →
        (classifyInit fetch_history configured acc r).2 =
          acc ++ [(beforeSlash r.tag_name, initVal fetch_history)]) ∧
      ((lookupKey acc (beforeSlash r.tag_name)).isSome = true →
        (classifyInit fetch_history configured acc r).2 = acc) ∧
      initVal true = .hist [] ∧ initVal false = .latest none none := by
  have hcond : ((matchOn configured r).isEmpty && r.tag_name.contains '/') = true := by
    rw [hm, hs]; rfl
  refine ⟨?_, ?_, beforeSlash_eq_takeWhile _, ?_, ?_, rfl, rfl⟩
  · unfold classifyInit
    rw [if_pos hcond]
  · unfold classifyKey
    rw [if_pos hcond]
  · intro hnone
    unfold classifyInit
    rw [if_pos hcond]
    simp only [hnone, Option.isNone_none, if_true]
    exact setKey_absent acc _ _ hnone
  · intro hsome
    unfold classifyInit
    rw [if_pos hcond]
    simp only []
    cases hl : lookupKey acc (beforeSlash r.tag_name) with
    | none => rw [hl] at hsome; cases hsome
    | some v => simp [hl]

/-- C6 witness: a monorepo-style tag creates the derived key with a fresh
latest-only slot. -/
theorem tag_derived_fallback_witness :
    (classifyInit false [[]] [] ⟨"op-node/v1.10.2".data, none, none, false, false⟩).1 =
        beforeSlash "op-node/v1.10.2".data ∧
      classifyKey [[]] ⟨"op-node/v1.10.2".data, none, none, false, false⟩ =
        beforeSlash "op-node/v1.10.2".data ∧
      beforeSlash "op-node/v1.10.2".data =
        "op-node/v1.10.2".data.takeWhile (fun x => x != '/') ∧
      (classifyInit false [[]] [] ⟨"op-node/v1.10.2".data, none, none, false, false⟩).2 =
        [] ++ [(beforeSlash "op-node/v1.10.2".data, initVal false)] := by
  have h := tag_derived_fallback false [[]] []
    ⟨"op-node/v1.10.2".data, none, none, false, false⟩ (by decide) (by decide)
  exact ⟨h.1, h.2.1, h.2.2.1, h.2.2.2.1 (by decide)⟩

/-! Claim C7. -/

/-- C7: the writer's target path is root/owner/repo[/artifact]/stem.md
where the stem strips a leading artifact-plus-separator prefix from the
tag exactly once when the artifact key is non-empty and the tag starts
with that prefix, and is the tag verbatim otherwise (including for the
empty key). -/
theorem writer_path_strips_prefix_once (root owner repo artifact rest tag : Str)
    (r : ReleaseInfo) (hne : artifact ≠ [])
    (hnp : (artifact ++ ['/']).isPrefixOf tag = false) :
    strippedTag artifact (artifact ++ '/' :: rest) = rest ∧
      strippedTag artifact tag = tag ∧
      strippedTag [] tag = tag ∧
      targetPath root owner repo artifact r.tag =
        (if artifact.isEmpty then [root, owner, repo] else [root, owner, repo, artifact]) ++
          [strippedTag artifact r.tag ++ ".md".data] :=
  ⟨strippedTag_strips_once artifact rest hne, strippedTag_keeps_tag artifact tag hnp,
    strippedTag_empty_key tag, rfl⟩

/-- C7 witness: the stem of tag a/a/v1 under artifact a is a/v1 (stripped
exactly once), tag v9 is kept verbatim, and the path shape is as stated. -/
theorem writer_path_strips_prefix_once_witness :
    strippedTag "a".data ("a".data ++ '/' :: "a/v1".data) = "a/v1".data ∧
      strippedTag "a".data "v9".data = "v9".data ∧
      strippedTag [] "v9".data = "v9".data ∧
      targetPath "root".data "o".data "r".data "a".data
          (⟨"a/a/v1".data, "notes".data, false⟩ : ReleaseInfo).tag =
        (if ("a".data : Str).isEmpty then ["root".data, "o".data, "r".data]
         else ["root".data, "o".data, "r".data, "a".data]) ++
          [strippedTag "a".data (⟨"a/a/v1".data, "notes".data, false⟩ : ReleaseInfo).tag ++
            ".md".data] :=
  writer_path_strips_prefix_once "root".data "o".data "r".data "a".data "a/v1".data "v9".data
    ⟨"a/a/v1".data, "notes".data, false⟩ (by decide) (by decide)

/-! Claim C8. -/

/-- C8: when a file already exists at the computed target path the writer
returns false and leaves the tree unchanged (the existing content
survives), and re-running the writer on the tree a previous run produced
changes nothing and reports false. -/
theorem writer_skips_existing (fs : FS) (root owner repo artifact : Str) (r : ReleaseInfo)
    (c : Str) (hex : fsLookup fs (targetPath root owner repo artifact r.tag) = some c) :
    save_release_notes fs root owner repo artifact r = (fs, false) ∧
      fsLookup (save_release_notes fs root owner repo artifact r).1
        (targetPath root owner repo artifact r.tag) = some c ∧
      ∀ fs2, save_release_notes (save_release_notes fs2 root owner repo artifact r).1
          root owner repo artifact r =
        ((save_release_notes fs2 root owner repo artifact r).1, false) := by
  have h1 : save_release_notes fs root owner repo artifact r = (fs, false) := by
    show (if (fsLookup fs (targetPath root owner repo artifact r.tag)).isSome = true
        then (fs, false)
        else (fsInsert fs (targetPath root owner repo artifact r.tag)
          (renderNotes owner repo artifact r), true)) = (fs, false)
    rw [hex]
    rfl
  refine ⟨h1, by rw [h1]; exact hex, ?_⟩
  intro fs2
  cases hl : fsLookup fs2 (targetPath root owner repo artifact r.tag) with
  | some c2 =>
    have h2 : save_release_notes fs2 root owner repo artifact r = (fs2, false) := by
      show (if (fsLookup fs2 (targetPath root owner repo artifact r.tag)).isSome = true
          then (fs2, false)
          else (fsInsert fs2 (targetPath root owner repo artifact r.tag)
            (renderNotes owner repo artifact r), true)) = (fs2, false)
      rw [hl]
      rfl
    rw [h2]
    exact h2
  | none =>
    have h2 : save_release_notes fs2 root owner repo artifact r =
        (fsInsert fs2 (targetPath root owner repo artifact r.tag)
          (renderNotes owner repo artifact r), true) := by
      show (if (fsLookup fs2 (targetPath root owner repo artifact r.tag)).isSome = true
          then (fs2, false)
          else (fsInsert fs2 (targetPath root owner repo artifact r.tag)
            (renderNotes owner repo artifact r), true)) = _
      rw [hl]
      rfl
    rw [h2]
    show (if (fsLookup (fsInsert fs2 (targetPath root owner repo artifact r.tag)
          (renderNotes owner repo artifact r)) (targetPath root owner repo artifact r.tag)).isSome
          = true
        then (fsInsert fs2 (targetPath root owner repo artifact r.tag)
          (renderNotes owner repo artifact r), false)
        else (fsInsert (fsInsert fs2 (targetPath root owner repo artifact r.tag)
            (renderNotes owner repo artifact r)) (targetPath root owner repo artifact r.tag)
          (renderNotes owner repo artifact r), true)) = _
    rw [fsLookup_insert_self fs2 _ _ hl]
    rfl

/-- C8 witness: with the target already present the writer returns false
and the old content stays; a fresh write followed by a re-run also
returns false. -/
theorem writer_skips_existing_witness :
    save_release_notes [(targetPath "root".data "o".data "r".data [] "v1".data, "old".data)]
        "root".data "o".data "r".data [] ⟨"v1".data, "new notes".data, false⟩ =
      ([(targetPath "root".data "o".data "r".data [] "v1".data, "old".data)], false) ∧
      fsLookup (save_release_notes
          [(targetPath "root".data "o".data "r".data [] "v1".data, "old".data)]
          "root".data "o".data "r".data [] ⟨"v1".data, "new notes".data, false⟩).1
        (targetPath "root".data "o".data "r".data []
          (⟨"v1".data, "new notes".data, false⟩ : ReleaseInfo).tag) = some "old".data ∧
      save_release_notes (save_release_notes [] "root".data "o".data "r".data []
          ⟨"v1".data, "new notes".data, false⟩).1 "root".data "o".data "r".data []
          ⟨"v1".data, "new notes".data, false⟩ =
        ((save_release_notes [] "root".data "o".data "r".data []
          ⟨"v1".data, "new notes".data, false⟩).1, false) := by
  have h := writer_skips_existing
    [(targetPath "root".data "o".data "r".data [] "v1".data, "old".data)]
    "root".data "o".data "r".data [] ⟨"v1".data, "new notes".data, false⟩ "old".data (by rfl)
  exact ⟨h.1, h.2.1, h.2.2 []⟩

/-! Claim C9. -/

/-- C9: a forbidden response carrying a zero rate-limit-remaining header
makes the fetch return exactly the accumulator gathered so far, while a
forbidden response with a nonzero header value, or any other transport
failure, yields the neutral empty-key result instead. -/
theorem rate_limit_returns_partial (fetch_history : Bool) (configured : List Str) (acc : Acc)
    (rest : List PageResp) (n req m : Nat) :
    fetchGo fetch_history configured (.forbidden 0 :: rest) acc n req =
        (some (.ok acc), req + 1) ∧
      fetchGo fetch_history configured (.forbidden (m + 1) :: rest) acc n req =
        (some (.ok neutralResult), req + 1) ∧
      fetchGo fetch_history configured (.transportError :: rest) acc n req =
        (some (.ok neutralResult), req + 1) := by
  refine ⟨?_, ?_, ?_⟩ <;> simp [fetchGo]

/-! Claim C10. -/

/-- C10: the empty-first-page exit and the transport-error exit both
return the single empty-key pair-of-absent-values map, whatever the mode,
the configured keys and the accumulated state; by contrast the history
mode accumulator is list-valued at every key from initialization through
every storage step. -/
theorem neutral_result_paths (fetch_history : Bool) (configured : List Str)
    (acc accH accH2 : Acc) (rest : List PageResp) (rem : Option Nat) (n req : Nat)
    (rs : List RawRelease) (hsh : accAll histShaped accH = true)
    (hrun : processRecords true configured accH rs = .ok accH2) :
    (get_latest_releases fetch_history configured (.page [] rem :: rest)).1 =
        some (.ok neutralResult) ∧
      (fetchGo fetch_history configured (.transportError :: rest) acc n req).1 =
        some (.ok neutralResult) ∧
      neutralResult = [([], .latest none none)] ∧
      accAll histShaped accH2 = true ∧
      accAll histShaped (initAcc true configured) = true := by
  refine ⟨?_, by simp [fetchGo], rfl,
    processRecords_hist_shape configured rs accH accH2 hsh hrun,
    accAll_histShaped_initAcc configured⟩
  unfold get_latest_releases fetchGo
  simp

/-- C10 witness: concrete instantiation in history mode with one stored
record. -/
theorem neutral_result_paths_witness :
    (get_latest_releases true [[]] [.page [] none]).1 = some (.ok neutralResult) ∧
      (fetchGo true [[]] [.transportError] [] 5 7).1 = some (.ok neutralResult) ∧
      neutralResult = [([], .latest none none)] ∧
      accAll histShaped [([], .hist [mkInfo recStable])] = true ∧
      accAll histShaped (initAcc true [[]]) = true := by
  have h := neutral_result_paths true [[]] [] (initAcc true [[]])
    [([], .hist [mkInfo recStable])] [] none 5 7 [recStable] (by decide) (by rfl)
  exact h

/-! Claim C2. -/

/-- C2 counterexample: with allow-list [op-node] and a single non-draft
record whose tag has no separator and matches nothing, the fetch result
contains the empty key even though the claimed set (allow-list union
tag-derived keys) does not. -/
theorem fetch_keys_counterexample :
    ([] : Str) ∈ keysOfResult
        (get_latest_releases false ["op-node".data] [.page [recNoMatch] none]).1 ∧
      ([] : Str) ∉ claimedKeySet ["op-node".data] [recNoMatch] := by decide

/-- C2 amended: in latest-only mode the key set of the accumulator after
the storage step runs over the records is exactly the configured
allow-list union the keys the classifier assigns to the non-draft records
processed — tag-derived keys, plus the empty default key for a record
that matches no configured key and has no separator in its tag. -/
theorem latest_mode_final_key_set (configured : List Str) (rs : List RawRelease)
    (acc2 : Acc) (k : Str)
    (hrun : processRecords false configured (initAcc false configured) rs = .ok acc2) :
    k ∈ keysOf acc2 ↔
      k ∈ configured ∨ ∃ r, r ∈ rs ∧ r.draft = false ∧ classifyKey configured r = k := by
  rw [processRecords_latest_keys configured rs (initAcc false configured) acc2 k
    (accAll_latestShaped_initAcc configured) hrun, mem_keysOf_initAcc]

/-- C2 amended witness: the empty key enters the key set through the
default classification of an unmatched record without separator. -/
theorem latest_mode_final_key_set_witness :
    ([] : Str) ∈ keysOf [("op-node".data, .latest none none),
      ([], .latest (some (mkInfo recStable)) none)] :=
  (latest_mode_final_key_set ["op-node".data] [recStable]
      [("op-node".data, .latest none none), ([], .latest (some (mkInfo recStable)) none)] []
      (by rfl)).mpr
    (Or.inr ⟨recStable, by decide, by decide, by decide⟩)

/-! Claim C5. -/

/-- C5 counterexample: with the non-empty allow-list containing the empty
string followed by x, and a record whose tag is x, the first configured
key whose lowercase form is a substring of a field is the empty string
(it is a substring of everything), yet the classifier assigns x: the code
skips falsy (empty) configured keys. -/
theorem classifier_counterexample :
    classifyKey [[], "x".data] ⟨"x".data, none, none, false, false⟩ = "x".data ∧
      specFirstMatchKey [[], "x".data] ⟨"x".data, none, none, false, false⟩ = some [] ∧
      ("x".data : Str) ≠ [] := by decide

/-- C5 amended: the configured-artifact match is the first non-empty
configured key, in allow-list order, whose lowercase form appears as a
substring of the lowercased name, tag or body, and when such a key exists
it is the assigned ArtifactKey. -/
theorem classifier_first_nonempty_match (configured : List Str) (r : RawRelease) :
    matchOn configured r =
      (configured.find? fun a =>
        !a.isEmpty &&
          matchesFields a (lowerOpt r.name) (toLowerStr r.tag_name) (lowerOpt r.body)).getD [] ∧
      (matchOn configured r ≠ [] → classifyKey configured r = matchOn configured r) := by
  constructor
  · induction configured with
    | nil => rfl
    | cons a rest ih =>
      show matchConfigured (a :: rest) (lowerOpt r.name) (toLowerStr r.tag_name)
          (lowerOpt r.body) = _
      unfold matchConfigured
      rw [List.find?]
      by_cases hp : (!a.isEmpty &&
          matchesFields a (lowerOpt r.name) (toLowerStr r.tag_name) (lowerOpt r.body)) = true
      · rw [if_pos hp, hp]
        rfl
      · rw [if_neg hp]
        rw [Bool.not_eq_true] at hp
        rw [hp]
        exact ih
  · intro h
    have he : (matchOn configured r).isEmpty = false := by
      cases hm : matchOn configured r with
      | nil => exact absurd hm h
      | cons a t => rfl
    unfold classifyKey
    rw [he]
    rfl

/-- C5 amended witness: on the counterexample input the match is x and it
is the assigned key. -/
theorem classifier_first_nonempty_match_witness :
    matchOn [[], "x".data] ⟨"x".data, none, none, false, false⟩ =
      (([[], "x".data] : List Str).find? fun a =>
        !a.isEmpty && matchesFields a (lowerOpt (none : Option Str))
          (toLowerStr "x".data) (lowerOpt (none : Option Str))).getD [] ∧
      classifyKey [[], "x".data] ⟨"x".data, none, none, false, false⟩ =
        matchOn [[], "x".data] ⟨"x".data, none, none, false, false⟩ :=
  ⟨(classifier_first_nonempty_match [[], "x".data] ⟨"x".data, none, none, false, false⟩).1,
    (classifier_first_nonempty_match [[], "x".data] ⟨"x".data, none, none, false, false⟩).2
      (by decide)⟩

/-! Claim C1. -/

/-- C1: the stop condition does not stop pagination on a full page.  With
the single configured key filled in both categories by the first two
records of a full first page, the per-page loop reports every slot
filled, yet the fetch still requests a second page: the break at line 388
only leaves the per-release loop, and line 391 keeps paging because the
page was full.  This contradicts the claim (and the debug message at line
387, which says pagination is stopping). -/
theorem stop_condition_requests_next_page :
    okAllFilled (processPage false [[]] (initAcc false [[]]) pageFull) = true ∧
      pageFull.length = per_page ∧
      (get_latest_releases false [[]] [.page pageFull none, .page [recStable] none]).2 = 2 := by
  decide

/-! Claim C3. -/

/-- C3: a recoverable per-repository failure aborts the whole batch in
history mode.  A transport error makes the fetch return the neutral
pair-valued result; the history save loop then iterates the pair, passes
None to the writer, and the writer's own error handler raises
AttributeError (line 460 reads release.tag), so the second repository is
never processed.  Alone, the second repository succeeds. -/
theorem history_error_result_aborts_batch :
    errOf (main_loop true "artifacts".data []
        [⟨"a/b".data, [[]], [.transportError]⟩,
          ⟨"c/d".data, [[]], [.page [recStable] none]⟩]) = some "AttributeError" ∧
      isOkFS (main_loop true "artifacts".data []
        [⟨"c/d".data, [[]], [.page [recStable] none]⟩]) = true := by
  decide

end PyMon
